import Mathlib

/-! Verification of the ATS CV checker (`streamlit_app.py`).

The development shallowly embeds the three testable parts of the program:

* `clean_text` — the whitespace-normalisation utility
  (`re.sub(r'\s+', ' ', text).strip()` guarded by Python truthiness);
* `analyze_cv_hf` — the retry/backoff loop around the HTTP call to the
  inference endpoint, modelled over an explicit script of per-attempt
  outcomes (status + parsed body shape, or a raised exception class),
  recording the returned string, the number of HTTP calls made and the
  sequence of sleep durations;
* the result-formatting block — the regex-based extraction of the score,
  the feedback bullets and the suggestion bullets.

Strings are embedded as `List Char`.  Regex searches are modelled
operationally, scanning candidate start positions left to right and
backtracking exactly as the Python `re` engine does on these patterns.
-/

namespace CV

/-- Python's whitespace class (`\s` for `str` patterns, and the default
`str.strip` set): tab through carriage return, the file/group/record/unit
separators, space, next line, no-break space, and the Unicode space
characters. -/
def isPySpace (c : Char) : Bool :=
  let n := c.toNat
  (9 ≤ n && n ≤ 13) || (28 ≤ n && n ≤ 31) || n == 32 || n == 133 || n == 160 ||
  n == 0x1680 || (0x2000 ≤ n && n ≤ 0x200a) || n == 0x2028 || n == 0x2029 ||
  n == 0x202f || n == 0x205f || n == 0x3000

/-- One pass of `re.sub(r'\s+', ' ', s)`: each maximal run of whitespace is
replaced by a single space.  The boolean records whether the previous
character was part of a whitespace run. -/
def subWsAux : Bool → List Char → List Char
  | _, [] => []
  | prev, c :: cs =>
    if isPySpace c then
      if prev then subWsAux true cs else ' ' :: subWsAux true cs
    else c :: subWsAux false cs

/-- Composition `re.sub(r'\s+', ' ', s)`. -/
def sub_ws (s : List Char) : List Char := subWsAux false s

/-- Left part of `str.strip()`. -/
def lstrip (l : List Char) : List Char := l.dropWhile isPySpace

/-- Right part of `str.strip()`. -/
def rstrip (l : List Char) : List Char := (l.reverse.dropWhile isPySpace).reverse

/-- Python `str.strip()` with no argument: drop whitespace from both ends. -/
def pyStrip (l : List Char) : List Char := rstrip (lstrip l)

/-- Source function `clean_text`: `if not text: return ""` (Python truthiness,
so `None` and the empty string short-circuit), then
`re.sub(r'\s+', ' ', text).strip()`. -/
def clean_text : Option (List Char) → List Char
  | none => []
  | some s => if s = [] then [] else pyStrip (sub_ws s)

/-- The maximal whitespace-free tokens of a string, in order; the accumulator
holds the reversed token in progress. -/
def tokensAux : List Char → List Char → List (List Char)
  | acc, [] => if acc = [] then [] else [acc.reverse]
  | acc, c :: cs =>
    if isPySpace c then
      if acc = [] then tokensAux [] cs else acc.reverse :: tokensAux [] cs
    else tokensAux (c :: acc) cs

/-- The whitespace-separated tokens of a string. -/
def tokens (s : List Char) : List (List Char) := tokensAux [] s

/-- Join a list of words with single spaces. -/
def joinSp : List (List Char) → List Char
  | [] => []
  | [w] => w
  | w :: ws => w ++ ' ' :: joinSp ws

/-- Modelled from the spec: "every run of one-or-more whitespace characters
(including newlines) collapses to a single space, and leading/trailing
whitespace is trimmed" — rendered as: the whitespace-separated tokens of the
input joined by single spaces. -/
def specNormalizeWs (s : List Char) : List Char := joinSp (tokens s)

example : clean_text (some "Hello\n\n   World\t\t!".toList) = "Hello World !".toList := by decide
example : specNormalizeWs "Hello\n\n   World\t\t!".toList = "Hello World !".toList := by decide
example : clean_text none = [] := rfl
example : clean_text (some "  a  b ".toList) = "a b".toList := by decide

/-- The output of the substitution pass in state `true` never starts with a
whitespace character. -/
theorem subAux_true_head : ∀ (s : List Char) (c : Char) (t : List Char),
    subWsAux true s = c :: t → isPySpace c = false := by
  intro s
  induction s with
  | nil => intro c t h; simp [subWsAux] at h
  | cons a as ih =>
    intro c t h
    by_cases ha : isPySpace a
    · rw [subWsAux, if_pos ha, if_pos rfl] at h
      exact ih c t h
    · rw [subWsAux, if_neg ha] at h
      injection h with h1 h2
      subst h1
      simpa using ha

theorem dropWhile_eq_self_of_head (l : List Char)
    (h : ∀ c t, l = c :: t → isPySpace c = false) :
    List.dropWhile isPySpace l = l := by
  cases l with
  | nil => rfl
  | cons c t => rw [List.dropWhile_cons_of_neg (by simp [h c t rfl])]

/-- Stripping the left end of the substituted string lands in state-`true`
output: the leading collapsed space (if any) is removed. -/
theorem lstrip_sub (s : List Char) : lstrip (sub_ws s) = subWsAux true s := by
  cases s with
  | nil => rfl
  | cons c cs =>
    by_cases hc : isPySpace c
    · show lstrip (subWsAux false (c :: cs)) = subWsAux true (c :: cs)
      rw [subWsAux, if_pos hc, if_neg (by simp), subWsAux, if_pos hc, if_pos rfl]
      show List.dropWhile isPySpace (' ' :: subWsAux true cs) = subWsAux true cs
      rw [List.dropWhile_cons_of_pos (by decide)]
      exact dropWhile_eq_self_of_head _ (subAux_true_head cs)
    · show lstrip (subWsAux false (c :: cs)) = subWsAux true (c :: cs)
      rw [subWsAux, if_neg hc, subWsAux, if_neg hc]
      exact List.dropWhile_cons_of_neg (by simp [hc])

theorem dropWhile_eq_self_of_all (l : List Char)
    (h : ∀ x ∈ l, isPySpace x = false) : List.dropWhile isPySpace l = l := by
  cases l with
  | nil => rfl
  | cons c t => exact List.dropWhile_cons_of_neg (by simp [h c (List.mem_cons_self c t)])

theorem rstrip_of_all (l : List Char) (h : ∀ x ∈ l, isPySpace x = false) :
    rstrip l = l := by
  unfold rstrip
  rw [dropWhile_eq_self_of_all _ (fun x hx => h x (List.mem_reverse.mp hx))]
  exact List.reverse_reverse l

theorem rstrip_append_space (l : List Char) (c : Char) (hc : isPySpace c = true) :
    rstrip (l ++ [c]) = rstrip l := by
  unfold rstrip
  rw [List.reverse_append]
  show (List.dropWhile isPySpace (c :: l.reverse)).reverse = _
  rw [List.dropWhile_cons_of_pos hc]

theorem dropWhile_append_of_ne_nil (p : Char → Bool) :
    ∀ (x y : List Char), List.dropWhile p x ≠ [] →
      List.dropWhile p (x ++ y) = List.dropWhile p x ++ y := by
  intro x
  induction x with
  | nil => intro y h; simp at h
  | cons a as ih =>
    intro y h
    by_cases ha : p a
    · rw [List.cons_append, List.dropWhile_cons_of_pos ha, List.dropWhile_cons_of_pos ha]
      exact ih y (by rwa [List.dropWhile_cons_of_pos ha] at h)
    · rw [List.cons_append, List.dropWhile_cons_of_neg ha, List.dropWhile_cons_of_neg ha,
        List.cons_append]

theorem rstrip_append (a b : List Char) (h : rstrip b ≠ []) :
    rstrip (a ++ b) = a ++ rstrip b := by
  have hb : List.dropWhile isPySpace b.reverse ≠ [] := by
    intro hcontra
    exact h (by simp [rstrip, hcontra])
  unfold rstrip
  rw [List.reverse_append, dropWhile_append_of_ne_nil _ _ _ hb, List.reverse_append,
    List.reverse_reverse]

theorem subAux_true_eq_nil_iff (s : List Char) :
    subWsAux true s = [] ↔ ∀ x ∈ s, isPySpace x = true := by
  induction s with
  | nil => simp [subWsAux]
  | cons c cs ih =>
    by_cases hc : isPySpace c
    · rw [subWsAux, if_pos hc, if_pos rfl]
      simp [ih, hc]
    · rw [subWsAux, if_neg hc]
      simp [hc]

theorem tokensAux_ne_nil : ∀ (s acc : List Char), acc ≠ [] → tokensAux acc s ≠ [] := by
  intro s
  induction s with
  | nil => intro acc h; simp [tokensAux, h]
  | cons c cs ih =>
    intro acc h
    by_cases hc : isPySpace c
    · rw [tokensAux, if_pos hc, if_neg h]
      simp
    · rw [tokensAux, if_neg hc]
      exact ih (c :: acc) (by simp)

theorem tokens_eq_nil_iff (s : List Char) :
    tokens s = [] ↔ ∀ x ∈ s, isPySpace x = true := by
  unfold tokens
  induction s with
  | nil => simp [tokensAux]
  | cons c cs ih =>
    by_cases hc : isPySpace c
    · rw [tokensAux, if_pos hc, if_pos rfl]
      simp [ih, hc]
    · rw [tokensAux, if_neg hc]
      constructor
      · intro h; exact absurd h (tokensAux_ne_nil cs [c] (by simp))
      · intro h; exact absurd (h c (by simp)) (by simp [hc])

/-- Every token is nonempty and free of whitespace. -/
theorem tokensAux_words (s : List Char) :
    ∀ acc : List Char, (∀ x ∈ acc, isPySpace x = false) →
      ∀ w ∈ tokensAux acc s, w ≠ [] ∧ ∀ x ∈ w, isPySpace x = false := by
  induction s with
  | nil =>
    intro acc hacc w hw
    by_cases h : acc = []
    · simp [tokensAux, h] at hw
    · rw [tokensAux, if_neg h] at hw
      rw [List.mem_singleton] at hw
      subst hw
      exact ⟨by simp [h], fun x hx => hacc x (List.mem_reverse.mp hx)⟩
  | cons c cs ih =>
    intro acc hacc w hw
    by_cases hc : isPySpace c
    · by_cases h : acc = []
      · rw [tokensAux, if_pos hc, if_pos h] at hw
        exact ih [] (by simp) w hw
      · rw [tokensAux, if_pos hc, if_neg h] at hw
        rcases List.mem_cons.mp hw with rfl | hw
        · exact ⟨by simp [h], fun x hx => hacc x (List.mem_reverse.mp hx)⟩
        · exact ih [] (by simp) w hw
    · rw [tokensAux, if_neg hc] at hw
      refine ih (c :: acc) ?_ w hw
      intro x hx
      rcases List.mem_cons.mp hx with rfl | hx
      · simpa using hc
      · exact hacc x hx

/-- The heart of the normalisation proof: stripping the substituted string
yields exactly the tokens joined by single spaces.  The second conjunct is the
generalised invariant for a partially emitted word. -/
theorem strip_sub_tokens (s : List Char) :
    rstrip (subWsAux true s) = joinSp (tokens s) ∧
    ∀ acc : List Char, acc ≠ [] → (∀ x ∈ acc, isPySpace x = false) →
      rstrip (acc.reverse ++ subWsAux false s) = joinSp (tokensAux acc s) := by
  induction s with
  | nil =>
    refine ⟨rfl, ?_⟩
    intro acc hne hall
    show rstrip (acc.reverse ++ []) = joinSp (tokensAux acc [])
    rw [List.append_nil, rstrip_of_all _ (fun x hx => hall x (List.mem_reverse.mp hx)),
      tokensAux, if_neg hne]
    rfl
  | cons c cs ih =>
    obtain ⟨ih1, ih2⟩ := ih
    constructor
    · by_cases hc : isPySpace c
      · rw [subWsAux, if_pos hc, if_pos rfl]
        rw [show tokens (c :: cs) = tokens cs by
          unfold tokens; rw [tokensAux, if_pos hc, if_pos rfl]]
        exact ih1
      · rw [subWsAux, if_neg hc]
        have hshift : (c :: subWsAux false cs : List Char)
            = [c].reverse ++ subWsAux false cs := by simp
        rw [hshift, ih2 [c] (by simp) (by intro x hx; simp at hx; subst hx; simpa using hc)]
        rw [show tokens (c :: cs) = tokensAux [c] cs by
          unfold tokens; rw [tokensAux, if_neg hc]]
    · intro acc hne hall
      by_cases hc : isPySpace c
      · rw [subWsAux, if_pos hc, if_neg (by simp)]
        rw [show tokensAux acc (c :: cs) = acc.reverse :: tokensAux [] cs by
          rw [tokensAux, if_pos hc, if_neg hne]]
        by_cases hts : tokensAux [] cs = []
        · have hall_cs : ∀ x ∈ cs, isPySpace x = true := (tokens_eq_nil_iff cs).mp hts
          have hsub : subWsAux true cs = [] := (subAux_true_eq_nil_iff cs).mpr hall_cs
          rw [hsub, hts]
          show rstrip (acc.reverse ++ [' ']) = joinSp [acc.reverse]
          rw [rstrip_append_space _ _ (by decide),
            rstrip_of_all _ (fun x hx => hall x (List.mem_reverse.mp hx))]
          rfl
        · obtain ⟨t, ts, hts'⟩ := List.exists_cons_of_ne_nil hts
          have ht : t ≠ [] :=
            (tokensAux_words cs [] (by simp) t (by rw [hts']; simp)).1
          have hne' : rstrip (subWsAux true cs) ≠ [] := by
            rw [ih1]
            show joinSp (tokens cs) ≠ []
            rw [show tokens cs = t :: ts from hts']
            cases ts with
            | nil => simpa [joinSp] using ht
            | cons v vs => simp [joinSp]
          rw [show (acc.reverse ++ ' ' :: subWsAux true cs : List Char)
              = (acc.reverse ++ [' ']) ++ subWsAux true cs by simp]
          rw [rstrip_append _ _ hne', ih1]
          rw [show tokens cs = t :: ts from hts', hts']
          rw [show joinSp (acc.reverse :: t :: ts) = acc.reverse ++ ' ' :: joinSp (t :: ts)
            from rfl]
          simp
      · rw [subWsAux, if_neg hc]
        rw [show tokensAux acc (c :: cs) = tokensAux (c :: acc) cs by
          rw [tokensAux, if_neg hc]]
        rw [show (acc.reverse ++ c :: subWsAux false cs : List Char)
            = (c :: acc).reverse ++ subWsAux false cs by simp]
        refine ih2 (c :: acc) (by simp) ?_
        intro x hx
        rcases List.mem_cons.mp hx with rfl | hx
        · simpa using hc
        · exact hall x hx

/-- Function `clean_text` computes exactly the spec's normalisation. -/
theorem clean_text_eq_spec (s : List Char) :
    clean_text (some s) = specNormalizeWs s := by
  cases s with
  | nil => rfl
  | cons c cs =>
    show (if (c :: cs : List Char) = [] then [] else pyStrip (sub_ws (c :: cs))) = _
    rw [if_neg (by simp)]
    unfold pyStrip
    rw [lstrip_sub, (strip_sub_tokens (c :: cs)).1]
    rfl

theorem tokensAux_word_shift (w : List Char) :
    ∀ (rest acc : List Char), (∀ x ∈ w, isPySpace x = false) →
      tokensAux acc (w ++ rest) = tokensAux (w.reverse ++ acc) rest := by
  induction w with
  | nil => intro rest acc _; rfl
  | cons c w' ih =>
    intro rest acc hw
    have hc : isPySpace c = false := hw c (by simp)
    show tokensAux acc (c :: (w' ++ rest)) = _
    rw [tokensAux, if_neg (by simp [hc])]
    rw [ih rest (c :: acc) (fun x hx => hw x (by simp [hx]))]
    simp

/-- Tokenising a single-space join of clean nonempty words recovers the
words. -/
theorem tokens_joinSp : ∀ ts : List (List Char),
    (∀ w ∈ ts, w ≠ [] ∧ ∀ x ∈ w, isPySpace x = false) →
      tokens (joinSp ts) = ts := by
  intro ts
  induction ts with
  | nil => intro _; rfl
  | cons w ws ih =>
    intro h
    obtain ⟨hw, hwall⟩ := h w (by simp)
    cases ws with
    | nil =>
      show tokens (joinSp [w]) = [w]
      unfold tokens
      rw [show joinSp [w] = w from rfl]
      rw [show w = w ++ ([] : List Char) by simp, tokensAux_word_shift w [] [] hwall]
      rw [List.append_nil, tokensAux, if_neg (by simp [hw])]
      simp
    | cons v vs =>
      show tokens (joinSp (w :: v :: vs)) = w :: v :: vs
      unfold tokens
      rw [show joinSp (w :: v :: vs) = w ++ ' ' :: joinSp (v :: vs) from rfl]
      rw [tokensAux_word_shift w _ [] hwall, List.append_nil]
      rw [tokensAux, if_pos (by decide), if_neg (by simp [hw])]
      rw [List.reverse_reverse]
      have := ih (fun u hu => h u (by simp [hu]))
      unfold tokens at this
      rw [this]

/-! The analysis client (`analyze_cv_hf`).

The HTTP layer is modelled by a script assigning to each attempt index the
outcome of the `requests.post` call on that attempt: either a received
response (status code plus the decoded body's shape, plus the text of the
`HTTPError` that `raise_for_status` would raise for an error status), or one
of the exception classes caught by the loop's handlers. -/

/-- The shape of a decoded 2xx/3xx response body, as discriminated by the
source's chain
`if isinstance(data, list) and data and "generated_text" in data[0]: …
elif isinstance(data, dict) and "generated_text" in data: …
else: …`:

* `listWithGen t` — a nonempty JSON list whose first element is a dict
  carrying `generated_text` (value `t`); both the membership test and the
  indexing succeed and `t` is returned;
* `dictWithGen t` — a JSON dict carrying `generated_text` with value `t`;
* `other` — a JSON value on which the shape tests evaluate cleanly to
  `False`: a non-list non-dict value, an empty list, a dict lacking the key,
  or a nonempty list whose first element supports the membership test but
  fails it (e.g. a dict lacking the key); this reaches the terminal `else`
  branch;
* `raisesType e` — a JSON value on which the shape test or the subsequent
  indexing raises `TypeError` — e.g. `[5]`, whose first element is not
  iterable, or a list whose first element is a string that contains the
  substring so that `data[0]["generated_text"]` is evaluated on a string;
  the generic `except Exception` handler catches it, so this path is
  retried; `e` is the exception's text;
* `notJson e` — a body `response.json()` cannot decode; the decode error is
  likewise caught by the generic handler and retried; `e` is its text. -/
inductive Body where
  | listWithGen : List Char → Body
  | dictWithGen : List Char → Body
  | other : Body
  | raisesType : List Char → Body
  | notJson : List Char → Body
deriving DecidableEq

/-- Outcome of one `requests.post` call: a response, or an exception raised by
the call itself, matching the loop's handlers in order (`Timeout`,
`HTTPError`, `RequestException`, `Exception`).  `HTTPError` arises in the
source only from `raise_for_status`, so it is derived from the response
status; its text rides along on `response`. -/
inductive Outcome where
  | response : Nat → Body → List Char → Outcome
  | timeoutExc : Outcome
  | transportExc : List Char → Outcome
  | otherExc : List Char → Outcome
deriving DecidableEq

/-- What one run of `analyze_cv_hf` did: the returned string, how many HTTP
calls were made, and the sleep durations in order. -/
structure RunResult where
  result : List Char
  calls : Nat
  sleeps : List Nat
deriving DecidableEq

def msgEmptyInput : List Char := "Error: No CV text to analyze.".toList

def msgTimeout : List Char := "Error: API request timed out after multiple attempts.".toList

def msgMaxRetries : List Char :=
  "Error: Max retries exceeded. The service may be temporarily unavailable.".toList

def msgUnexpected : List Char := "Error: Unexpected API response format.".toList

def msgHttpFail (e : List Char) : List Char := "Error: HTTP request failed: ".toList ++ e

def msgTransport (e : List Char) : List Char := "Error analyzing CV: ".toList ++ e

def msgOther (e : List Char) : List Char := "An unexpected error occurred: ".toList ++ e

/-- The retry loop of `analyze_cv_hf`, one recursive step per iteration of
`for attempt in range(max_retries)`.  `rem` counts the iterations still
allowed (`max_retries - attempt`); the Python guard `attempt < max_retries - 1`
is `rem ≠ 1`, i.e. the inner `rem = 0` test after peeling one iteration.
A 503 sleeps `initial_delay * 2 ** attempt` and continues — also on the last
iteration, after which the loop falls through to the max-retries message.
`raise_for_status` raises exactly for statuses 400–599. -/
def analyzeGo (script : Nat → Outcome) (initial_delay : Nat) : Nat → Nat → RunResult
  | _, 0 => ⟨msgMaxRetries, 0, []⟩
  | attempt, rem + 1 =>
    match script attempt with
    | Outcome.response st body errText =>
      if st = 503 then
        let r := analyzeGo script initial_delay (attempt + 1) rem
        ⟨r.result, r.calls + 1, initial_delay * 2 ^ attempt :: r.sleeps⟩
      else if 400 ≤ st ∧ st ≤ 599 then
        if rem = 0 then ⟨msgHttpFail errText, 1, []⟩
        else
          let r := analyzeGo script initial_delay (attempt + 1) rem
          ⟨r.result, r.calls + 1, initial_delay * 2 ^ attempt :: r.sleeps⟩
      else
        match body with
        | Body.listWithGen t => ⟨t, 1, []⟩
        | Body.dictWithGen t => ⟨t, 1, []⟩
        | Body.other => ⟨msgUnexpected, 1, []⟩
        | Body.raisesType e =>
          if rem = 0 then ⟨msgOther e, 1, []⟩
          else
            let r := analyzeGo script initial_delay (attempt + 1) rem
            ⟨r.result, r.calls + 1, initial_delay * 2 ^ attempt :: r.sleeps⟩
        | Body.notJson e =>
          if rem = 0 then ⟨msgOther e, 1, []⟩
          else
            let r := analyzeGo script initial_delay (attempt + 1) rem
            ⟨r.result, r.calls + 1, initial_delay * 2 ^ attempt :: r.sleeps⟩
    | Outcome.timeoutExc =>
      if rem = 0 then ⟨msgTimeout, 1, []⟩
      else
        let r := analyzeGo script initial_delay (attempt + 1) rem
        ⟨r.result, r.calls + 1, initial_delay * 2 ^ attempt :: r.sleeps⟩
    | Outcome.transportExc e =>
      if rem = 0 then ⟨msgTransport e, 1, []⟩
      else
        let r := analyzeGo script initial_delay (attempt + 1) rem
        ⟨r.result, r.calls + 1, initial_delay * 2 ^ attempt :: r.sleeps⟩
    | Outcome.otherExc e =>
      if rem = 0 then ⟨msgOther e, 1, []⟩
      else
        let r := analyzeGo script initial_delay (attempt + 1) rem
        ⟨r.result, r.calls + 1, initial_delay * 2 ^ attempt :: r.sleeps⟩

/-- Source function `analyze_cv_hf(cv_text, max_retries, initial_delay)`.  The emptiness guard
is Python truthiness: `if not cv_text` fires for `None` and for the empty
string only — a whitespace-only string is truthy.  (The 4000-character
truncation and the prompt construction do not influence the modelled
observables and are omitted.) -/
def analyze_cv_hf (script : Nat → Outcome) (cv_text : Option (List Char))
    (max_retries initial_delay : Nat) : RunResult :=
  match cv_text with
  | none => ⟨msgEmptyInput, 0, []⟩
  | some t => if t = [] then ⟨msgEmptyInput, 0, []⟩ else analyzeGo script initial_delay 0 max_retries

/-- Default of the `max_retries` parameter in the source. -/
def defaultMaxRetries : Nat := 3

/-- Default of the `initial_delay` parameter in the source. -/
def defaultInitialDelay : Nat := 1

/-- A script raising `k` consecutive 503s and then succeeding with body text
`t`; `e` is the (unused unless an error status occurs) `HTTPError` text. -/
def script503Then (k : Nat) (t e : List Char) : Nat → Outcome :=
  fun n => if n < k then Outcome.response 503 Body.other e
           else Outcome.response 200 (Body.listWithGen t) e

example :
    analyze_cv_hf (script503Then 3 "OK".toList []) (some ['x']) 3 1
      = ⟨msgMaxRetries, 3, [1, 2, 4]⟩ := by decide
example :
    analyze_cv_hf (script503Then 2 "OK".toList []) (some ['x']) 3 1
      = ⟨"OK".toList, 3, [1, 2]⟩ := by decide
example :
    analyze_cv_hf (fun _ => Outcome.timeoutExc) (some [' ']) 3 1
      = ⟨msgTimeout, 3, [1, 2]⟩ := by decide

/-- Prepending the current attempt's delay to a tail of correctly indexed
delays yields a correctly indexed delay list. -/
theorem cons_pow_range (d attempt : Nat) (l : List Nat)
    (hl : l = (List.range l.length).map (fun i => d * 2 ^ (attempt + 1 + i))) :
    d * 2 ^ attempt :: l =
      (List.range (d * 2 ^ attempt :: l).length).map (fun i => d * 2 ^ (attempt + i)) := by
  conv_lhs => rw [hl]
  rw [List.length_cons, List.range_succ_eq_map, List.map_cons, List.map_map]
  rw [List.cons.injEq]
  refine ⟨by simp, ?_⟩
  apply List.map_congr_left
  intro i _
  show d * 2 ^ (attempt + 1 + i) = d * 2 ^ (attempt + (i + 1))
  rw [show attempt + 1 + i = attempt + (i + 1) from by omega]

/-- One iteration either ends the run without sleeping, or sleeps exactly
`initial_delay * 2 ^ attempt` before the rest of the run. -/
theorem analyzeGo_sleeps_step (script : Nat → Outcome) (d attempt k : Nat) :
    (analyzeGo script d attempt (k + 1)).sleeps = [] ∨
    (analyzeGo script d attempt (k + 1)).sleeps
      = d * 2 ^ attempt :: (analyzeGo script d (attempt + 1) k).sleeps := by
  cases hsc : script attempt with
  | response st body errText =>
    cases body <;>
      · simp only [analyzeGo, hsc]
        split_ifs <;> simp
  | timeoutExc =>
    simp only [analyzeGo, hsc]
    split_ifs <;> simp
  | transportExc e =>
    simp only [analyzeGo, hsc]
    split_ifs <;> simp
  | otherExc e =>
    simp only [analyzeGo, hsc]
    split_ifs <;> simp

/-- The sleep sequence of any run is exactly the doubling sequence
`d * 2 ^ 0, d * 2 ^ 1, …` (shifted by the starting attempt index), whatever
mix of retried failure classes produced it. -/
theorem analyzeGo_sleeps (script : Nat → Outcome) (d : Nat) :
    ∀ rem attempt, (analyzeGo script d attempt rem).sleeps =
      (List.range (analyzeGo script d attempt rem).sleeps.length).map
        (fun i => d * 2 ^ (attempt + i)) := by
  intro rem
  induction rem with
  | zero => intro attempt; simp [analyzeGo]
  | succ k ih =>
    intro attempt
    rcases analyzeGo_sleeps_step script d attempt k with h | h
    · rw [h]; simp
    · rw [h]
      exact cons_pow_range d attempt _ (ih (attempt + 1))

/-- A timeout on every attempt: each iteration but the last sleeps and
retries; the last returns the timeout message.  The run makes exactly one
call per iteration. -/
theorem analyzeGo_timeout_all (script : Nat → Outcome) (d : Nat)
    (hs : ∀ n, script n = Outcome.timeoutExc) :
    ∀ rem attempt, 1 ≤ rem →
      (analyzeGo script d attempt rem).result = msgTimeout ∧
      (analyzeGo script d attempt rem).calls = rem := by
  intro rem
  induction rem with
  | zero => intro attempt h; exact absurd h (by omega)
  | succ k ih =>
    intro attempt _
    cases k with
    | zero => simp [analyzeGo, hs attempt]
    | succ j =>
      have h2 := ih (attempt + 1) (by omega)
      simp only [analyzeGo, hs attempt]
      rw [if_neg (by omega)]
      refine ⟨h2.1, ?_⟩
      show (analyzeGo script d (attempt + 1) (j + 1)).calls + 1 = j + 1 + 1
      rw [h2.2]

/-- A 200 response whose JSON body has neither expected shape ends the run
at once with the format-error message: one call, no sleeps, no retries,
however many iterations remain. -/
theorem analyzeGo_malformed (script : Nat → Outcome) (d attempt rem : Nat) (e : List Char)
    (h : script attempt = Outcome.response 200 Body.other e) :
    analyzeGo script d attempt (rem + 1) = ⟨msgUnexpected, 1, []⟩ := by
  simp only [analyzeGo, h]
  rw [if_neg (by omega), if_neg (by omega)]

/-- A 200 response whose body makes the shape test raise `TypeError` is NOT
terminal: every such attempt runs the generic exception handler, sleeping and
retrying like a timeout, and a run of them exhausts the budget with the
generic error message — one call per iteration. -/
theorem analyzeGo_raises_all (script : Nat → Outcome) (d : Nat) (e err : List Char)
    (hs : ∀ n, script n = Outcome.response 200 (Body.raisesType e) err) :
    ∀ rem attempt, 1 ≤ rem →
      (analyzeGo script d attempt rem).result = msgOther e ∧
      (analyzeGo script d attempt rem).calls = rem := by
  intro rem
  induction rem with
  | zero => intro attempt h; exact absurd h (by omega)
  | succ k ih =>
    intro attempt _
    cases k with
    | zero =>
      refine ⟨?_, ?_⟩ <;>
      · simp only [analyzeGo, hs attempt]
        rw [if_neg (by omega), if_neg (by omega)]
        simp
    | succ j =>
      have h2 := ih (attempt + 1) (by omega)
      simp only [analyzeGo, hs attempt]
      rw [if_neg (by omega), if_neg (by omega), if_neg (by omega)]
      refine ⟨h2.1, ?_⟩
      show (analyzeGo script d (attempt + 1) (j + 1)).calls + 1 = j + 1 + 1
      rw [h2.2]

/-! The result formatter.

The display block parses `analysis_result` with three regexes.  Each
`re.search` is modelled operationally: candidate start positions are scanned
left to right; at a position, `\s*` is tried greedily (longest first,
backtracking over the newline positions inside the whitespace run) and `.+?`
lazily (shortest first).  `re.findall(r"- (.+)")` scans for non-overlapping
matches, resuming after each match; without `re.DOTALL`, `.` stops at a
newline.  `\d` and `int` are modelled on the ASCII digits, the only ones the
program's prompt and the spec exercise. -/

def atsMarker : List Char := "ATS Compliance Score:".toList

def fbMarker : List Char := "Feedback:".toList

def sugMarker : List Char := "Suggestions:".toList

/-- Test `hasPrefixL s p` : does `s` start with `p`? -/
def hasPrefixL : List Char → List Char → Bool
  | _, [] => true
  | [], _ :: _ => false
  | c :: cs, p :: ps => c = p && hasPrefixL cs ps

/-- Python's `pat in s` substring test. -/
def containsSub (pat : List Char) : List Char → Bool
  | [] => hasPrefixL [] pat
  | c :: cs => hasPrefixL (c :: cs) pat || containsSub pat cs

/-- Strip `p` from the front of `s`, if present. -/
def dropPrefixL : List Char → List Char → Option (List Char)
  | s, [] => some s
  | [], _ :: _ => none
  | c :: cs, p :: ps => if c = p then dropPrefixL cs ps else none

def isAsciiDigit (c : Char) : Bool := '0' ≤ c && c ≤ '9'

/-- Python `int` on a nonempty ASCII digit string. -/
def digitsToNat (l : List Char) : Nat := l.foldl (fun a c => a * 10 + (c.toNat - 48)) 0

/-- Try `ATS Compliance Score:\s*(\d+)` anchored at the start of `s`:
the literal, then greedily skipped whitespace, then at least one digit
(`\s` and `\d` are disjoint, so no backtracking arises). -/
def tryScoreAt (s : List Char) : Option Nat :=
  match dropPrefixL s atsMarker with
  | none => none
  | some rest =>
    let ds := (rest.dropWhile isPySpace).takeWhile isAsciiDigit
    if ds = [] then none else some (digitsToNat ds)

/-- Search `re.search(r"ATS Compliance Score:\s*(\d+)", s)`, returning the captured
integer. -/
def score_match : List Char → Option Nat
  | [] => none
  | c :: cs =>
    match tryScoreAt (c :: cs) with
    | some n => some n
    | none => score_match cs

/-- Indices of the newline characters of a list, largest first — the order in
which a greedy `\s*` followed by a literal `\n` backtracks through a
whitespace run. -/
def nlIndicesRev : List Char → List Nat
  | [] => []
  | c :: cs =>
    let tail := (nlIndicesRev cs).map (· + 1)
    if c = '\n' then tail ++ [0] else tail

def firstSome {α : Type} : List (Option α) → Option α
  | [] => none
  | o :: os =>
    match o with
    | some x => some x
    | none => firstSome os

/-- Lazy `(.+?)(?=stop)` under `re.DOTALL`: the shortest nonempty prefix whose
remainder starts with `stop`. -/
def lazyCapture (stop : List Char) : List Char → Option (List Char)
  | [] => none
  | c :: cs =>
    if hasPrefixL cs stop then some [c]
    else
      match lazyCapture stop cs with
      | some p => some (c :: p)
      | none => none

/-- Lazy `(.+?)$` under `re.DOTALL` without `re.MULTILINE`: the shortest
nonempty prefix ending at the end of the string or just before a final
newline. -/
def lazyToEnd : List Char → Option (List Char)
  | [] => none
  | c :: cs =>
    if cs = [] ∨ cs = ['\n'] then some [c]
    else
      match lazyToEnd cs with
      | some p => some (c :: p)
      | none => none

/-- Try `Feedback:\s*\n(.+?)(?=Suggestions:)` anchored at the start of `s`:
the literal, then `\s*\n` (the last — greedy — newline of the following
whitespace run, backtracking to earlier newlines if the lazy part fails),
then the lazy capture up to a later `Suggestions:`. -/
def tryFbAt (s : List Char) : Option (List Char) :=
  match dropPrefixL s fbMarker with
  | none => none
  | some rest =>
    let pre := rest.takeWhile isPySpace
    firstSome ((nlIndicesRev pre).map (fun j => lazyCapture sugMarker (rest.drop (j + 1))))

/-- Search `re.search(r"Feedback:\s*\n(.+?)(?=Suggestions:)", s, re.DOTALL)`,
returning the capture. -/
def feedback_section : List Char → Option (List Char)
  | [] => none
  | c :: cs =>
    match tryFbAt (c :: cs) with
    | some cap => some cap
    | none => feedback_section cs

/-- Try `Suggestions:\s*\n(.+?)$` anchored at the start of `s`. -/
def trySugAt (s : List Char) : Option (List Char) :=
  match dropPrefixL s sugMarker with
  | none => none
  | some rest =>
    let pre := rest.takeWhile isPySpace
    firstSome ((nlIndicesRev pre).map (fun j => lazyToEnd (rest.drop (j + 1))))

/-- Search `re.search(r"Suggestions:\s*\n(.+?)$", s, re.DOTALL)`, returning the
capture. -/
def suggestions_section : List Char → Option (List Char)
  | [] => none
  | c :: cs =>
    match trySugAt (c :: cs) with
    | some cap => some cap
    | none => suggestions_section cs

/-- Scan `re.findall(r"- (.+)", text)` with explicit fuel (one unit per scanned
position; the list shrinks by at least one character per step, so
`text.length` units suffice).  On `"- "` followed by at least one non-newline
character the rest of the line is captured and scanning resumes after it
(matches are non-overlapping); otherwise scanning advances one character. -/
def findallDashF : Nat → List Char → List (List Char)
  | 0, _ => []
  | _ + 1, [] => []
  | fuel + 1, c :: cs =>
    if c = '-' then
      match cs with
      | ' ' :: rest =>
        let cap := rest.takeWhile (fun x => x ≠ '\n')
        if cap = [] then findallDashF fuel cs
        else cap :: findallDashF fuel (rest.dropWhile (fun x => x ≠ '\n'))
      | _ => findallDashF fuel cs
    else findallDashF fuel cs

/-- Scan `re.findall(r"- (.+)", text)`. -/
def findallDash (l : List Char) : List (List Char) := findallDashF l.length l

/-- Source line `feedback_points = re.findall(r"- (.+)", feedback_section.group(1))`. -/
def feedback_points (sec : List Char) : List (List Char) := findallDash sec

/-- Source line `suggestion_points = re.findall(r"- (.+)", suggestions_section.group(1))`. -/
def suggestion_points (sec : List Char) : List (List Char) := findallDash sec

/-- The structured display fields recovered from an analysis response. -/
structure ParsedResult where
  score : Option Nat
  feedback : List (List Char)
  suggestions : List (List Char)
  raw : List Char
deriving DecidableEq

/-- The display block of the source: if the literal score marker is absent the
raw text is shown unparsed; otherwise the three regexes run, a section that
fails to match contributing an empty list.  The `raw` string is kept in every
case. -/
def format_result (s : List Char) : ParsedResult :=
  if containsSub atsMarker s then
    ⟨score_match s,
     (match feedback_section s with
      | some sec => feedback_points sec
      | none => []),
     (match suggestions_section s with
      | some sec => suggestion_points sec
      | none => []),
     s⟩
  else ⟨none, [], [], s⟩

example :
    format_result "ATS Compliance Score: 72\nFeedback:\n- A\n- B\n- C\nSuggestions:\n- D\n- E\n- F".toList
      = ⟨some 72, ["A".toList, "B".toList, "C".toList],
         ["D".toList, "E".toList, "F".toList],
         "ATS Compliance Score: 72\nFeedback:\n- A\n- B\n- C\nSuggestions:\n- D\n- E\n- F".toList⟩ := by
  decide

example :
    format_result "some unrelated text".toList
      = ⟨none, [], [], "some unrelated text".toList⟩ := by decide

example :
    (format_result "ATS Compliance Score: 10\nFeedback:\n- A\n- B\n- C\n- D\nSuggestions:\n- E".toList).feedback
      = ["A".toList, "B".toList, "C".toList, "D".toList] := by decide

example :
    format_result "ATS Compliance Score: abc ATS Compliance Score: 72\nFeedback:\n\nSuggestions:\n- D\n".toList
      = ⟨some 72, [], ["D".toList],
         "ATS Compliance Score: abc ATS Compliance Score: 72\nFeedback:\n\nSuggestions:\n- D\n".toList⟩ := by
  decide

example :
    format_result "ATS Compliance Score:5 Feedback: \n \n- x\nSuggestions: \n- y\n- z\n".toList
      = ⟨some 5, ["x".toList], ["y".toList, "z".toList],
         "ATS Compliance Score:5 Feedback: \n \n- x\nSuggestions: \n- y\n- z\n".toList⟩ := by
  decide

example :
    format_result "ATS Compliance Score: 7\nFeedback:\n- \nSuggestions:\n\n".toList
      = ⟨some 7, [], [],
         "ATS Compliance Score: 7\nFeedback:\n- \nSuggestions:\n\n".toList⟩ := by decide

example :
    format_result "ATS Compliance Score: 7\nFeedback: no newline Suggestions:\n- q".toList
      = ⟨some 7, [], ["q".toList],
         "ATS Compliance Score: 7\nFeedback: no newline Suggestions:\n- q".toList⟩ := by decide

/-- Every entry `re.findall(r"- (.+)")` yields is a nonempty single line:
the capture is a nonempty run of non-newline characters. -/
theorem findallDashF_shape : ∀ (fuel : Nat) (l : List Char),
    ∀ w ∈ findallDashF fuel l, w ≠ [] ∧ '\n' ∉ w := by
  intro fuel
  induction fuel with
  | zero => intro l w hw; simp [findallDashF] at hw
  | succ f ih =>
    intro l w hw
    cases l with
    | nil => simp [findallDashF] at hw
    | cons c cs =>
      simp only [findallDashF] at hw
      split at hw
      · split at hw
        · split at hw
          · exact ih _ w hw
          · rename_i hcap
            rcases List.mem_cons.mp hw with rfl | hw
            · refine ⟨hcap, ?_⟩
              intro hmem
              have := List.mem_takeWhile_imp hmem
              simp at this
            · exact ih _ w hw
        · exact ih _ w hw
      · exact ih _ w hw

/-- Both bullet lists of a formatted result contain only nonempty single-line
entries. -/
theorem format_result_bullets (s : List Char) :
    (∀ w ∈ (format_result s).feedback, w ≠ [] ∧ '\n' ∉ w) ∧
    (∀ w ∈ (format_result s).suggestions, w ≠ [] ∧ '\n' ∉ w) := by
  constructor <;>
  · intro w hw
    unfold format_result at hw
    split at hw
    · simp only at hw
      split at hw
      · exact findallDashF_shape _ _ w hw
      · simp at hw
    · simp at hw

/-- A response string with four feedback bullets (the prompt asks for three,
but the model's output is untrusted free text). -/
def exFourBullets : List Char :=
  "ATS Compliance Score: 10\nFeedback:\n- A\n- B\n- C\n- D\nSuggestions:\n- E".toList

/-! The claims. -/

/-- C1, counterexample: with `max_retries = 3` and `initial_delay = 1`, three
consecutive 503s followed by a success do NOT lead to 4 calls with sleeps
1, 2 and a returned body: the three 503s exhaust all three loop iterations
(3 calls, sleeps 1, 2, 4) and the max-retries error is returned. -/
theorem c1_counterexample :
    (analyze_cv_hf (script503Then 3 "OK".toList []) (some ['x']) 3 1).calls = 3 ∧
    (analyze_cv_hf (script503Then 3 "OK".toList []) (some ['x']) 3 1).sleeps = [1, 2, 4] ∧
    (analyze_cv_hf (script503Then 3 "OK".toList []) (some ['x']) 3 1).result = msgMaxRetries ∧
    ¬ ((analyze_cv_hf (script503Then 3 "OK".toList []) (some ['x']) 3 1).calls = 4 ∧
       (analyze_cv_hf (script503Then 3 "OK".toList []) (some ['x']) 3 1).sleeps = [1, 2] ∧
       (analyze_cv_hf (script503Then 3 "OK".toList []) (some ['x']) 3 1).result = "OK".toList) := by
  decide

/-- C1, amended: a 503 is transient in that it never by itself produces an
error return inside the retry budget — with `max_retries = 3`, two 503s then
a success yield the successful body after 3 calls, sleeping
`initial_delay * 1` then `initial_delay * 2`; but three consecutive 503s
exhaust the budget: exactly 3 calls (never 4), a sleep after every 503
(`initial_delay * 1, 2, 4` — including one after the final 503), and the
max-retries-exceeded error. -/
theorem c1_amended_retry503 (t e : List Char) (d : Nat) :
    analyze_cv_hf (script503Then 3 t e) (some ['x']) 3 d
      = ⟨msgMaxRetries, 3, [d * 2 ^ 0, d * 2 ^ 1, d * 2 ^ 2]⟩ ∧
    analyze_cv_hf (script503Then 2 t e) (some ['x']) 3 d
      = ⟨t, 3, [d * 2 ^ 0, d * 2 ^ 1]⟩ :=
  ⟨rfl, rfl⟩

/-- C2, counterexample: on the whitespace-only input `" "` the guard
`if not cv_text` does not fire (Python truthiness), so the function proceeds
to the network: with every call timing out it makes 3 calls and returns the
timeout error, not the empty-input error with zero calls. -/
theorem c2_counterexample :
    (analyze_cv_hf (fun _ => Outcome.timeoutExc) (some [' ']) 3 1).calls = 3 ∧
    (analyze_cv_hf (fun _ => Outcome.timeoutExc) (some [' ']) 3 1).calls ≠ 0 ∧
    (analyze_cv_hf (fun _ => Outcome.timeoutExc) (some [' ']) 3 1).result ≠ msgEmptyInput := by
  decide

/-- C2, amended: for empty input — `None` or the empty string, the only
inputs Python truthiness treats as empty — `analyze_cv_hf` returns the
empty-input error having made no HTTP call and slept never; whitespace-only
but nonempty input is not short-circuited. -/
theorem c2_amended_empty_short_circuit (script : Nat → Outcome) (mr d : Nat) :
    analyze_cv_hf script none mr d = ⟨msgEmptyInput, 0, []⟩ ∧
    analyze_cv_hf script (some []) mr d = ⟨msgEmptyInput, 0, []⟩ :=
  ⟨rfl, rfl⟩

/-- C3, counterexample: the formatter does not cap the bullet lists at 3 —
on a response whose feedback section carries four bullets it returns four
feedback entries. -/
theorem c3_counterexample :
    (format_result exFourBullets).feedback.length = 4 ∧
    ¬ ((format_result exFourBullets).feedback.length ≤ 3 ∧
       (format_result exFourBullets).suggestions.length ≤ 3) := by
  decide

/-- C3, amended: the feedback and suggestions sequences collect every
bulleted line of their section in original order, with no upper bound of 3
enforced (a four-bullet section yields four entries); each entry is a
nonempty single line. -/
theorem c3_amended_bullet_shape :
    (∀ (s : List Char), ∀ w ∈ (format_result s).feedback, w ≠ [] ∧ '\n' ∉ w) ∧
    (∀ (s : List Char), ∀ w ∈ (format_result s).suggestions, w ≠ [] ∧ '\n' ∉ w) ∧
    (format_result exFourBullets).feedback
      = ["A".toList, "B".toList, "C".toList, "D".toList] :=
  ⟨fun s => (format_result_bullets s).1, fun s => (format_result_bullets s).2, by decide⟩

/-- C3, witness: the amended theorem applied at the four-bullet response, to
one feedback entry and one suggestion entry. -/
theorem c3_witness :
    ("A".toList ≠ [] ∧ '\n' ∉ "A".toList) ∧ ("E".toList ≠ [] ∧ '\n' ∉ "E".toList) :=
  ⟨c3_amended_bullet_shape.1 exFourBullets "A".toList (by decide),
   c3_amended_bullet_shape.2.1 exFourBullets "E".toList (by decide)⟩

/-- C4: when every attempt raises a request timeout, `analyze_cv_hf` (on
nonempty input, with at least one retry allowed) makes exactly `max_retries`
HTTP calls and returns the timeout-class error string. -/
theorem c4_timeout_retries (script : Nat → Outcome) (c : Char) (t0 : List Char)
    (mr d : Nat) (hmr : 1 ≤ mr) (hs : ∀ n, script n = Outcome.timeoutExc) :
    (analyze_cv_hf script (some (c :: t0)) mr d).result = msgTimeout ∧
    (analyze_cv_hf script (some (c :: t0)) mr d).calls = mr := by
  have he : analyze_cv_hf script (some (c :: t0)) mr d = analyzeGo script d 0 mr := by
    simp [analyze_cv_hf]
  rw [he]
  exact analyzeGo_timeout_all script d hs mr 0 hmr

/-- C4, witness: the all-timeout script at the defaults. -/
theorem c4_witness :
    (analyze_cv_hf (fun _ => Outcome.timeoutExc) (some ['x']) 3 1).result = msgTimeout ∧
    (analyze_cv_hf (fun _ => Outcome.timeoutExc) (some ['x']) 3 1).calls = 3 :=
  c4_timeout_retries (fun _ => Outcome.timeoutExc) 'x' [] 3 1 (by omega) (fun _ => rfl)

/-- A script whose every attempt yields a 200 response decoding to `[5]`: a
nonempty JSON list whose first element carries no generated-text field — the
membership test `"generated_text" in data[0]` raises `TypeError` on the int
`5`, so the generic exception handler runs. -/
def scriptBadElem : Nat → Outcome :=
  fun _ => Outcome.response 200 (Body.raisesType "TypeError: int is not iterable".toList) []

/-- C5, counterexample: not every non-matching 200 JSON body is terminal.
On the body `[5]` — a nonempty list whose first element carries no
generated-text field — the shape test raises `TypeError`, the generic
handler sleeps and retries, and the run ends after all 3 calls with the
generic error message, not the unexpected-format error after one call. -/
theorem c5_counterexample :
    (analyze_cv_hf scriptBadElem (some ['x']) 3 1).calls = 3 ∧
    (analyze_cv_hf scriptBadElem (some ['x']) 3 1).sleeps = [1, 2] ∧
    (analyze_cv_hf scriptBadElem (some ['x']) 3 1).result
      = msgOther "TypeError: int is not iterable".toList ∧
    ¬ ((analyze_cv_hf scriptBadElem (some ['x']) 3 1).calls = 1 ∧
       (analyze_cv_hf scriptBadElem (some ['x']) 3 1).result = msgUnexpected) := by
  decide

/-- C5, amended: a 200 response whose JSON body makes the shape tests
evaluate cleanly to `False` (a non-list non-dict value, an empty list, a
dict lacking the key, or a list whose first element supports the membership
test but fails it) ends the run immediately with the unexpected-format
error — one call, no sleeps, no further attempts, however many iterations
remain (first conjunct: mid-run at any attempt index and budget; second: at
the top level).  But a 200 body on which the shape test itself raises
`TypeError` (e.g. `[5]`) follows the generic exception path instead: such a
run sleeps, retries, makes all `max_retries` calls and returns the generic
error message (third conjunct). -/
theorem c5_amended_malformed :
    (∀ (script : Nat → Outcome) (d attempt rem : Nat) (e : List Char),
        script attempt = Outcome.response 200 Body.other e →
        analyzeGo script d attempt (rem + 1) = ⟨msgUnexpected, 1, []⟩) ∧
    (∀ (script : Nat → Outcome) (c : Char) (t0 : List Char) (mr d : Nat) (e : List Char),
        script 0 = Outcome.response 200 Body.other e → 1 ≤ mr →
        analyze_cv_hf script (some (c :: t0)) mr d = ⟨msgUnexpected, 1, []⟩) ∧
    (∀ (script : Nat → Outcome) (c : Char) (t0 e err : List Char) (mr d : Nat),
        (∀ n, script n = Outcome.response 200 (Body.raisesType e) err) → 1 ≤ mr →
        (analyze_cv_hf script (some (c :: t0)) mr d).result = msgOther e ∧
        (analyze_cv_hf script (some (c :: t0)) mr d).calls = mr) := by
  refine ⟨?_, ?_, ?_⟩
  · intro script d attempt rem e h
    exact analyzeGo_malformed script d attempt rem e h
  · intro script c t0 mr d e h hmr
    obtain ⟨k, rfl⟩ : ∃ k, mr = k + 1 := ⟨mr - 1, by omega⟩
    have he : analyze_cv_hf script (some (c :: t0)) (k + 1) d = analyzeGo script d 0 (k + 1) := by
      simp [analyze_cv_hf]
    rw [he]
    exact analyzeGo_malformed script d 0 k e h
  · intro script c t0 e err mr d hs hmr
    have he : analyze_cv_hf script (some (c :: t0)) mr d = analyzeGo script d 0 mr := by
      simp [analyze_cv_hf]
    rw [he]
    exact analyzeGo_raises_all script d e err hs mr 0 hmr

/-- C5, witness: the amended theorem at concrete inputs — a cleanly-failing
body mid-run and at the top level, and the `[5]` script exhausting all three
attempts. -/
theorem c5_witness :
    analyzeGo (fun _ => Outcome.response 200 Body.other []) 1 0 1 = ⟨msgUnexpected, 1, []⟩ ∧
    analyze_cv_hf (fun _ => Outcome.response 200 Body.other []) (some ['x']) 3 1
      = ⟨msgUnexpected, 1, []⟩ ∧
    (analyze_cv_hf scriptBadElem (some ['x']) 3 1).result
      = msgOther "TypeError: int is not iterable".toList ∧
    (analyze_cv_hf scriptBadElem (some ['x']) 3 1).calls = 3 :=
  ⟨c5_amended_malformed.1 (fun _ => Outcome.response 200 Body.other []) 1 0 0 [] rfl,
   c5_amended_malformed.2.1 (fun _ => Outcome.response 200 Body.other []) 'x' [] 3 1 [] rfl
     (by omega),
   (c5_amended_malformed.2.2 scriptBadElem 'x' []
      "TypeError: int is not iterable".toList [] 3 1 (fun _ => rfl) (by omega)).1,
   (c5_amended_malformed.2.2 scriptBadElem 'x' []
      "TypeError: int is not iterable".toList [] 3 1 (fun _ => rfl) (by omega)).2⟩

/-- C6: whatever mix of retried failure classes a run hits, the sleep before
the next attempt after (0-based) attempt `i` is exactly
`initial_delay * 2 ^ i` — the sleep list of any run on nonempty input is an
initial segment of the doubling sequence, with no jitter and no cap; and the
source's defaults are `initial_delay = 1`, `max_retries = 3`. -/
theorem c6_backoff_doubling :
    (∀ (script : Nat → Outcome) (c : Char) (t0 : List Char) (mr d : Nat),
      (analyze_cv_hf script (some (c :: t0)) mr d).sleeps =
        (List.range (analyze_cv_hf script (some (c :: t0)) mr d).sleeps.length).map
          (fun i => d * 2 ^ i)) ∧
    defaultInitialDelay = 1 ∧ defaultMaxRetries = 3 := by
  refine ⟨?_, rfl, rfl⟩
  intro script c t0 mr d
  have he : analyze_cv_hf script (some (c :: t0)) mr d = analyzeGo script d 0 mr := by
    simp [analyze_cv_hf]
  rw [he]
  conv_lhs => rw [analyzeGo_sleeps script d mr 0]
  apply List.map_congr_left
  intro i _
  simp

/-- C7: `clean_text` collapses every whitespace run (newlines and tabs
included) to a single space and trims both ends — it agrees everywhere with
the spec-worded normalisation — and on `"Hello\n\n   World\t\t!"` it yields
exactly `"Hello World !"`. -/
theorem c7_clean_text_normalizes :
    (∀ s : List Char, clean_text (some s) = specNormalizeWs s) ∧
    clean_text (some "Hello\n\n   World\t\t!".toList) = "Hello World !".toList :=
  ⟨clean_text_eq_spec, by decide⟩

/-- C8: the round-trip response string parses to score 72, feedback A, B, C
and suggestions D, E, F. -/
theorem c8_round_trip :
    (format_result "ATS Compliance Score: 72\nFeedback:\n- A\n- B\n- C\nSuggestions:\n- D\n- E\n- F".toList).score
      = some 72 ∧
    (format_result "ATS Compliance Score: 72\nFeedback:\n- A\n- B\n- C\nSuggestions:\n- D\n- E\n- F".toList).feedback
      = ["A".toList, "B".toList, "C".toList] ∧
    (format_result "ATS Compliance Score: 72\nFeedback:\n- A\n- B\n- C\nSuggestions:\n- D\n- E\n- F".toList).suggestions
      = ["D".toList, "E".toList, "F".toList] := by
  decide

/-- C9: the formatter is a total function (it never raises: every parsing
irregularity only leaves a field unset or empty) that preserves the raw
string on every input; on a marker-free string it yields no score, no
feedback, no suggestions, and the raw text for display. -/
theorem c9_formatter_total :
    (∀ s : List Char, (format_result s).raw = s) ∧
    format_result "some unrelated text".toList
      = ⟨none, [], [], "some unrelated text".toList⟩ := by
  constructor
  · intro s
    unfold format_result
    split <;> rfl
  · decide

/-- C10: `clean_text` is idempotent on every string, and total on the empty
cases: it maps `None` and the empty string to the empty string without
raising. -/
theorem c10_clean_text_idempotent :
    (∀ s : List Char, clean_text (some (clean_text (some s))) = clean_text (some s)) ∧
    clean_text none = [] ∧ clean_text (some []) = [] := by
  refine ⟨?_, rfl, rfl⟩
  intro s
  rw [clean_text_eq_spec s, clean_text_eq_spec (specNormalizeWs s)]
  show specNormalizeWs (specNormalizeWs s) = specNormalizeWs s
  unfold specNormalizeWs
  rw [tokens_joinSp (tokens s) (tokensAux_words s [] (by simp))]

end CV
